import Mathlib

/-
Verification of the transaction-pipeline specification of the
near-api-js-ext repository against its source.

The file is a shallow embedding: each JavaScript/TypeScript function of the
repository that a claim touches is translated into an executable Lean
definition, and the claims are settled as theorems about those definitions.
Components of the pipeline whose code is not in the visible repository slice
(NonceAllocator, Submitter, TransactionEncoder, the nonce-conflict retry
policy) are modelled from the specification's words; their doc comments say
so explicitly.
-/

namespace Logging

/- Embedding of src/lib/utils/logging.js.  The module-level constant
SUPPRESS_LOGGING is `true` in the source; the two exported functions test it
first and return immediately when it is set.  Each function is embedded twice:
a `With` version abstracted over that one module constant, and the source
function itself, which instantiates the constant exactly as the module does.
Console output is modelled as the list of lines printed, console.log and
console.warn merged in program order. -/

/-- The module-level constant of src/lib/utils/logging.js line 5:
const SUPPRESS_LOGGING = true. -/
def SUPPRESS_LOGGING : Bool := true

/-- Execution status of one outcome node as delivered over JSON-RPC: the
three tagged object variants, or the bare string tag for a still-unknown
outcome.  On the wire a Failure payload is always an object, so the source's
two tests (typeof status.Failure === object, status.Failure !== undefined)
coincide and are both embedded by matching on the failure variant. -/
inductive ExecutionStatus where
  | successValue (v : String)
  | successReceiptId (id : String)
  | failure (err : String)
  | unknown
deriving DecidableEq, Repr

/-- Modelled from the spec: parseRpcError lives in src/lib/utils/rpc_errors.js,
which is not part of the visible slice.  The spec only requires that the
verdict carries the node's structured error parsed from the node's status, so
the parsed error is modelled as a structured wrapper of the raw payload. -/
structure ParsedRpcError where
  raw : String
deriving DecidableEq, Repr

/-- Modelled from the spec: the parsing step of src/lib/utils/rpc_errors.js,
turning the raw Failure payload of a status into the structured error. -/
def parseRpcError (e : String) : ParsedRpcError := ⟨e⟩

/-- How a ParsedRpcError renders inside a template string. -/
def ParsedRpcError.render (e : ParsedRpcError) : String := e.raw

/-- One execution outcome node: logs, spawned receipt ids and status
(the fields of it.outcome read by logging.js). -/
structure ExecutionOutcome where
  logs : List String
  receipt_ids : List String
  status : ExecutionStatus
deriving DecidableEq, Repr

/-- One element of [outcome.transaction_outcome, ...outcome.receipts_outcome]:
the wrapper object whose .outcome field logging.js reads. -/
structure OutcomeWithId where
  outcome : ExecutionOutcome
deriving DecidableEq, Repr

/-- The final execution outcome as logging.js destructures it: the root
transaction outcome plus the receipt outcomes in network-reported order. -/
structure FinalExecutionOutcome where
  transaction_outcome : OutcomeWithId
  receipts_outcome : List OutcomeWithId
deriving DecidableEq, Repr

/-- The node list [outcome.transaction_outcome, ...outcome.receipts_outcome]
built on line 16 of logging.js: root first, then receipts in network order. -/
def nodesOf (o : FinalExecutionOutcome) : List OutcomeWithId :=
  o.transaction_outcome :: o.receipts_outcome

/-- Line 18 of logging.js: typeof status === object and typeof
status.Failure === object. -/
def isFailureStatus : ExecutionStatus → Bool
  | .failure _ => true
  | _ => false

/-- One element of the flatLogs accumulator of logging.js lines 20-26. -/
structure FlatLog where
  receiptIds : List String
  logs : List String
  failure : Option ParsedRpcError
deriving DecidableEq, Repr

/-- The value the reduce body of logging.js lines 17-31 appends for one node,
none when the node is skipped (no logs and not a failure). -/
def flatLogEntry (it : OutcomeWithId) : Option FlatLog :=
  if it.outcome.logs.length != 0 || isFailureStatus it.outcome.status then
    some { receiptIds := it.outcome.receipt_ids
           logs := it.outcome.logs
           failure :=
             match it.outcome.status with
             | .failure e => some (parseRpcError e)
             | _ => none }
  else
    none

/-- The reduce of logging.js lines 16-31, verbatim as a left fold with list
concatenation for acc.concat. -/
def flatLogsFold (nodes : List OutcomeWithId) : List FlatLog :=
  nodes.foldl
    (fun acc it =>
      if it.outcome.logs.length != 0 || isFailureStatus it.outcome.status then
        acc ++ [{ receiptIds := it.outcome.receipt_ids
                  logs := it.outcome.logs
                  failure :=
                    match it.outcome.status with
                    | .failure e => some (parseRpcError e)
                    | _ => none }]
      else acc)
    []

/-- printTxOutcomeLogs (logging.js lines 52-60), abstracted over the module
constant SUPPRESS_LOGGING; returns the console lines it prints. -/
def printTxOutcomeLogsWith (sup : Bool) (contractId : String)
    (logs : List String) (pre : String) : List String :=
  if sup then []
  else logs.map (fun l => pre ++ "Log [" ++ contractId ++ "]: " ++ l)

/-- printTxOutcomeLogs as exported: the suppression constant instantiated
exactly as the module sets it. -/
def printTxOutcomeLogs (contractId : String) (logs : List String)
    (pre : String) : List String :=
  printTxOutcomeLogsWith SUPPRESS_LOGGING contractId logs pre

/-- The console lines the loop body of logging.js lines 32-42 prints for one
flatLogs entry: the Receipt header, the indented log lines, and the Failure
warning when the entry's failure is non-null. -/
def renderFlatLog (sup : Bool) (contractId : String) (r : FlatLog) :
    List String :=
  ("Receipt" ++ (if r.receiptIds.length > 1 then "s" else "") ++ ": "
      ++ String.intercalate ", " r.receiptIds)
    :: (printTxOutcomeLogsWith sup contractId r.logs "\t"
        ++ match r.failure with
           | some f => ["\tFailure [" ++ contractId ++ "]: " ++ f.render]
           | none => [])

/-- printTxOutcomeLogsAndFailures (logging.js lines 12-43), abstracted over
the module constant; returns the console lines printed.  The inner
printTxOutcomeLogs call reads the same module constant. -/
def printTxOutcomeLogsAndFailuresWith (sup : Bool) (contractId : String)
    (o : FinalExecutionOutcome) : List String :=
  if sup then []
  else (flatLogsFold (nodesOf o)).flatMap (renderFlatLog sup contractId)

/-- printTxOutcomeLogsAndFailures as exported: suppression constant
instantiated exactly as the module sets it. -/
def printTxOutcomeLogsAndFailures (contractId : String)
    (o : FinalExecutionOutcome) : List String :=
  printTxOutcomeLogsAndFailuresWith SUPPRESS_LOGGING contractId o

/-- A concrete final outcome whose root is Success but whose only receipt
outcome is a Failure: the situation of claim C1. -/
def sampleRootOkReceiptFail : FinalExecutionOutcome :=
  { transaction_outcome := ⟨⟨[], ["tx1"], .successReceiptId "r1"⟩⟩
    receipts_outcome := [⟨⟨[], ["r1"], .failure "FunctionCallError"⟩⟩] }

/-- A concrete final outcome whose root carries one log line and whose
receipt list is empty: the situation of claim C2. -/
def sampleRootWithLog : FinalExecutionOutcome :=
  { transaction_outcome := ⟨⟨["hello"], ["tx2"], .successValue ""⟩⟩
    receipts_outcome := [] }

end Logging

namespace Errors

/- Embedding of the TypedError class of src/lib/utils/errors.js lines 16-23. -/

/-- ErrorContext (errors.js lines 24-29): the structured cause attached to a
TypedError. -/
structure ErrorContext where
  transactionHash : Option String
deriving DecidableEq, Repr

/-- The TypedError object: message from Error, plus the type and context
fields the constructor assigns. -/
structure TypedError where
  message : String
  type : String
  context : Option ErrorContext
deriving DecidableEq, Repr

/-- The TypedError constructor (errors.js lines 17-21).  The type argument is
optional; JavaScript's type || makes every falsy value — an omitted argument
or the empty string — fall back to the generic label. -/
def TypedError.make (message : String) (type? : Option String)
    (context? : Option ErrorContext) : TypedError :=
  { message
    type :=
      match type? with
      | some t => if t = "" then "UntypedError" else t
      | none => "UntypedError"
    context := context? }

end Errors

namespace Logging

/-- The reduce of printTxOutcomeLogsAndFailures visits every node of the list
in order and keeps exactly the nodes flatLogEntry keeps. -/
theorem flatLogsFold_eq_filterMap (nodes : List OutcomeWithId) :
    flatLogsFold nodes = nodes.filterMap flatLogEntry := by
  suffices h : ∀ acc, nodes.foldl
      (fun acc it =>
        if it.outcome.logs.length != 0 || isFailureStatus it.outcome.status then
          acc ++ [{ receiptIds := it.outcome.receipt_ids
                    logs := it.outcome.logs
                    failure :=
                      match it.outcome.status with
                      | .failure e => some (parseRpcError e)
                      | _ => none }]
        else acc)
      acc = acc ++ nodes.filterMap flatLogEntry by
    simpa [flatLogsFold] using h []
  induction nodes with
  | nil => intro acc; simp
  | cons n ns ih =>
    intro acc
    simp only [List.foldl_cons, List.filterMap_cons]
    by_cases h : (n.outcome.logs.length != 0 || isFailureStatus n.outcome.status) = true
    · rw [if_pos h]
      have he : flatLogEntry n
          = some { receiptIds := n.outcome.receipt_ids
                   logs := n.outcome.logs
                   failure :=
                     match n.outcome.status with
                     | .failure e => some (parseRpcError e)
                     | _ => none } := by
        rw [flatLogEntry, if_pos h]
      rw [he, ih, List.append_assoc]
      rfl
    · rw [if_neg h]
      have he : flatLogEntry n = none := by
        rw [flatLogEntry, if_neg h]
      rw [he, ih]

/-- A node skipped by the reduce has no logs. -/
theorem flatLogEntry_none_logs_nil (it : OutcomeWithId)
    (h : flatLogEntry it = none) : it.outcome.logs = [] := by
  rw [flatLogEntry] at h
  split at h
  · exact absurd h (by simp)
  · next hc =>
    have h1 : ¬ (it.outcome.logs.length != 0) = true := fun hl => hc (by simp [hl])
    have h0 : it.outcome.logs.length = 0 := by
      by_contra hne
      exact h1 (by simpa using hne)
    exact List.length_eq_zero.mp h0

/-- A node kept by the reduce contributes exactly its own logs. -/
theorem flatLogEntry_some_logs (it : OutcomeWithId) (r : FlatLog)
    (h : flatLogEntry it = some r) : r.logs = it.outcome.logs := by
  rw [flatLogEntry] at h
  split at h
  · cases Option.some.injEq .. ▸ h
    rfl
  · exact absurd h (by simp)

/-- Concatenating the kept entries' logs in order gives exactly the
concatenation of every node's logs in order. -/
theorem flatLogsFold_logs (nodes : List OutcomeWithId) :
    (flatLogsFold nodes).flatMap FlatLog.logs
      = nodes.flatMap (fun it => it.outcome.logs) := by
  rw [flatLogsFold_eq_filterMap]
  induction nodes with
  | nil => simp
  | cons n ns ih =>
    cases h : flatLogEntry n with
    | none =>
      simp [h, flatLogEntry_none_logs_nil n h, ih]
    | some r =>
      simp [h, flatLogEntry_some_logs n r h, ih]

/-- A receipt node with Failure status is kept by the reduce, with its parsed
structured error in the entry's failure field. -/
theorem flatLogEntry_of_failure (it : OutcomeWithId) (e : String)
    (hst : it.outcome.status = .failure e) :
    flatLogEntry it = some { receiptIds := it.outcome.receipt_ids
                             logs := it.outcome.logs
                             failure := some (parseRpcError e) } := by
  simp [flatLogEntry, isFailureStatus, hst]

end Logging

/-- C1 counterexample: on a concrete final outcome whose root is Success and
whose only receipt outcome is a Failure, printTxOutcomeLogsAndFailures as
shipped (SUPPRESS_LOGGING = true) prints nothing at all — it inspects no node
and reports no receipt failure, contrary to the claim. -/
theorem C1_suppressed_reports_nothing :
    Logging.printTxOutcomeLogsAndFailures "contract" Logging.sampleRootOkReceiptFail = []
      ∧ (Logging.sampleRootOkReceiptFail.receipts_outcome.any
          (fun it => Logging.isFailureStatus it.outcome.status)) = true :=
  ⟨rfl, rfl⟩

/-- C1 (amended): when the module constant SUPPRESS_LOGGING is false,
printTxOutcomeLogsAndFailures inspects every node — the root and all receipt
outcomes in network-reported order (its reduce visits the whole node list in
order) — and prints each Failure receipt's structured error parsed from the
node's status, even when the root is Success; as shipped, with
SUPPRESS_LOGGING = true, it returns immediately and reports nothing. -/
theorem C1_unsuppressed_reports_receipt_failure (cid : String)
    (o : Logging.FinalExecutionOutcome) (it : Logging.OutcomeWithId) (e : String)
    (hmem : it ∈ o.receipts_outcome)
    (hst : it.outcome.status = .failure e) :
    Logging.flatLogsFold (Logging.nodesOf o)
        = (Logging.nodesOf o).filterMap Logging.flatLogEntry
      ∧ ("\tFailure [" ++ cid ++ "]: " ++ (Logging.parseRpcError e).render)
          ∈ Logging.printTxOutcomeLogsAndFailuresWith false cid o
      ∧ Logging.printTxOutcomeLogsAndFailuresWith Logging.SUPPRESS_LOGGING cid o
          = [] := by
  refine ⟨Logging.flatLogsFold_eq_filterMap _, ?_, rfl⟩
  have hentry := Logging.flatLogEntry_of_failure it e hst
  have hmem' : it ∈ Logging.nodesOf o := List.mem_cons_of_mem _ hmem
  have hkept : ({ receiptIds := it.outcome.receipt_ids
                  logs := it.outcome.logs
                  failure := some (Logging.parseRpcError e) } : Logging.FlatLog)
      ∈ Logging.flatLogsFold (Logging.nodesOf o) := by
    rw [Logging.flatLogsFold_eq_filterMap]
    exact List.mem_filterMap.mpr ⟨it, hmem', hentry⟩
  have hout : Logging.printTxOutcomeLogsAndFailuresWith false cid o
      = (Logging.flatLogsFold (Logging.nodesOf o)).flatMap
          (Logging.renderFlatLog false cid) := rfl
  rw [hout]
  refine List.mem_flatMap.mpr ⟨_, hkept, ?_⟩
  exact List.mem_cons_of_mem _
    (List.mem_append_right _ (List.mem_singleton.mpr rfl))

/-- C1 witness at a concrete outcome. -/
theorem C1_unsuppressed_reports_receipt_failure_witness :
    Logging.flatLogsFold (Logging.nodesOf Logging.sampleRootOkReceiptFail)
        = (Logging.nodesOf Logging.sampleRootOkReceiptFail).filterMap
            Logging.flatLogEntry
      ∧ ("\tFailure [" ++ "contract" ++ "]: "
            ++ (Logging.parseRpcError "FunctionCallError").render)
          ∈ Logging.printTxOutcomeLogsAndFailuresWith false "contract"
              Logging.sampleRootOkReceiptFail
      ∧ Logging.printTxOutcomeLogsAndFailuresWith Logging.SUPPRESS_LOGGING
          "contract" Logging.sampleRootOkReceiptFail = [] :=
  C1_unsuppressed_reports_receipt_failure "contract" Logging.sampleRootOkReceiptFail
    ⟨⟨[], ["r1"], .failure "FunctionCallError"⟩⟩ "FunctionCallError"
    (by simp [Logging.sampleRootOkReceiptFail]) rfl

/-- C2 counterexample: on a concrete final outcome whose root carries one log
line, the shipped log-printing operations (SUPPRESS_LOGGING = true) emit
nothing, while the concatenation of the nodes' logs is non-empty — so the
emitted logs are not that concatenation. -/
theorem C2_suppressed_emits_no_logs :
    Logging.printTxOutcomeLogsAndFailures "c" Logging.sampleRootWithLog = []
      ∧ (Logging.nodesOf Logging.sampleRootWithLog).flatMap
          (fun it => it.outcome.logs) = ["hello"]
      ∧ Logging.printTxOutcomeLogs "c" ["hello"] "" = [] :=
  ⟨rfl, rfl, rfl⟩

/-- C2 (amended): when the module constant SUPPRESS_LOGGING is false,
printTxOutcomeLogs prints one line per given log in order, and the logs
carried by the entries printTxOutcomeLogsAndFailures prints are exactly the
concatenation of every node's logs in deterministic traversal order — the
root transaction outcome's logs first, then each receipt outcome's logs in
network-reported order; as shipped, with SUPPRESS_LOGGING = true, both
operations emit nothing. -/
theorem C2_unsuppressed_logs_concatenation (cid pre : String)
    (logs : List String) (o : Logging.FinalExecutionOutcome) :
    Logging.printTxOutcomeLogsWith false cid logs pre
        = logs.map (fun l => pre ++ "Log [" ++ cid ++ "]: " ++ l)
      ∧ (Logging.flatLogsFold (Logging.nodesOf o)).flatMap Logging.FlatLog.logs
          = o.transaction_outcome.outcome.logs
            ++ o.receipts_outcome.flatMap (fun it => it.outcome.logs)
      ∧ Logging.printTxOutcomeLogs cid logs pre = [] := by
  refine ⟨by simp [Logging.printTxOutcomeLogsWith], ?_, rfl⟩
  simpa [Logging.nodesOf] using Logging.flatLogsFold_logs (Logging.nodesOf o)

/-- C3 counterexample: a TypedError raised with the explicit type argument ""
does not keep it — the type field is re-labeled to the generic UntypedError. -/
theorem C3_empty_type_relabeled :
    (Errors.TypedError.make "msg" (some "") none).type = "UntypedError"
      ∧ (Errors.TypedError.make "msg" (some "") none).type ≠ "" := by
  constructor
  · rfl
  · intro h
    simp [Errors.TypedError.make] at h

/-- C3 (amended): a TypedError raised with a non-empty type keeps exactly that
type, so callers can branch on the error kind; only an omitted or empty type
argument — a falsy value in the constructor's type || fallback — is re-labeled
to the generic UntypedError. -/
theorem C3_type_preserved_when_nonempty (m t : String)
    (c : Option Errors.ErrorContext) (h : t ≠ "") :
    (Errors.TypedError.make m (some t) c).type = t
      ∧ (Errors.TypedError.make m none c).type = "UntypedError"
      ∧ (Errors.TypedError.make m (some "") c).type = "UntypedError" := by
  refine ⟨?_, rfl, rfl⟩
  simp [Errors.TypedError.make, h]

/-- C3 witness at a concrete non-empty error kind. -/
theorem C3_type_preserved_when_nonempty_witness :
    (Errors.TypedError.make "tx failed" (some "LackBalanceForState") none).type
        = "LackBalanceForState"
      ∧ (Errors.TypedError.make "tx failed" none none).type = "UntypedError"
      ∧ (Errors.TypedError.make "tx failed" (some "") none).type
        = "UntypedError" :=
  C3_type_preserved_when_nonempty "tx failed" "LackBalanceForState" none
    (by decide)

namespace KeyStoreBrowser

/- Embedding of src/src/key_stores/browser_local_storage_key_store.ts.  The
class keeps a plain JavaScript object in this.localStorage (the constructor
assigns {} and later copies chrome.storage content into a fresh object); the
object is modelled as an association list in insertion order, with the
object-literal spread, property read and delete operations embedded below.
The chrome.storage.local calls are external write-only side effects that no
method of the class ever reads back, so they do not appear in the state. -/

/-- Modelled from the spec: KeyPair lives in src/utils/key_pair, which is not
in the visible slice; the spec treats the key provider as an external
collaborator that holds a keypair.  A key pair is identified with its string
encoding, making toString and fromString mutually inverse. -/
structure KeyPair where
  enc : String
deriving DecidableEq, Repr

/-- Modelled from the spec: KeyPair.toString, the string encoding. -/
def KeyPair.toStr (kp : KeyPair) : String := kp.enc

/-- Modelled from the spec: KeyPair.fromString, the decoding. -/
def KeyPair.fromStr (s : String) : KeyPair := ⟨s⟩

/-- A well-formed key pair has a non-empty string encoding — real encodings
look like ed25519:base58data and are never the empty string. -/
def KeyPair.wf (kp : KeyPair) : Prop := kp.enc ≠ ""

/-- A plain JavaScript object holding string values: its own enumerable
properties in insertion order. -/
abbrev Store := List (String × String)

/-- Property read obj[k]: the value at the key, none when absent. -/
def objGet (st : Store) (k : String) : Option String :=
  (st.find? (fun p => p.1 == k)).map (fun p => p.2)

/-- The object literal spread of setKey: a new object with every other
property unchanged and k bound to v — in place when k already existed,
appended otherwise, as JavaScript property order dictates. -/
def objSet (st : Store) (k v : String) : Store :=
  if (st.find? (fun p => p.1 == k)).isSome then
    st.map (fun p => if p.1 == k then (k, v) else p)
  else
    st ++ [(k, v)]

/-- The delete operator of removeKey: drops the property. -/
def objDelete (st : Store) (k : String) : Store :=
  st.filter (fun p => p.1 != k)

/-- The default storage key tag of line 4 of the source file. -/
def LOCAL_STORAGE_KEY_PREFIX : String := "near-api-js:keystore:"

/-- The state of one BrowserLocalStorageKeyStore instance: the localStorage
object and the string the constructor stored from its second argument (the
field the source calls by the name the storage keys start with). -/
structure KeyStoreState where
  localStorage : Store
  pre : String
deriving DecidableEq, Repr

/-- storageKeyForSecretKey (lines 141-143). -/
def storageKeyForSecretKey (st : KeyStoreState) (networkId accountId : String) :
    String :=
  st.pre ++ accountId ++ ":" ++ networkId

/-- setKey (lines 55-63): spreads the old object with the storage key bound
to keyPair.toString().  The chrome.storage.local.set call writes an external
store no method reads back. -/
def setKey (st : KeyStoreState) (networkId accountId : String) (kp : KeyPair) :
    KeyStoreState :=
  let k := storageKeyForSecretKey st networkId accountId
  { st with localStorage := objSet st.localStorage k kp.toStr }

/-- getKey (lines 71-77): reads the property; if (!value) return null covers
both an absent property and the empty string; otherwise decodes. -/
def getKey (st : KeyStoreState) (networkId accountId : String) :
    Option KeyPair :=
  match objGet st.localStorage (storageKeyForSecretKey st networkId accountId) with
  | none => none
  | some v => if v = "" then none else some (KeyPair.fromStr v)

/-- removeKey (lines 84-87): deletes the property.  The
chrome.storage.local.remove call is external and never read back. -/
def removeKey (st : KeyStoreState) (networkId accountId : String) :
    KeyStoreState :=
  let k := storageKeyForSecretKey st networkId accountId
  { st with localStorage := objDelete st.localStorage k }

/-- One run of a JavaScript generator: the values it yields and the value it
returns.  A for..of loop consumes the yielded values only; the return value
is discarded. -/
structure GenRun (α β : Type) where
  yielded : List α
  ret : β

/-- Iterating a generator with for..of visits exactly the yielded values. -/
def GenRun.iterated {α β : Type} (g : GenRun α β) : List α := g.yielded

/-- storageKeys (lines 146-148): a generator whose body is a single return
statement — return Object.values(this.localStorage) — so it yields nothing;
the Object.values list (the property values, not the keys) is only its
discarded return value. -/
def storageKeys (st : KeyStoreState) : GenRun String (List String) :=
  ⟨[], st.localStorage.map (fun p => p.2)⟩

/-- key.substring(pre.length).split(':') as used by getNetworks and
getAccounts. -/
def keyParts (st : KeyStoreState) (key : String) : List String :=
  (key.drop st.pre.length).splitOn ":"

/-- Set.add followed by Array.from on an insertion-ordered Set, as one fold
step of getNetworks. -/
def addUnique (xs : List String) (x : String) : List String :=
  if x ∈ xs then xs else xs ++ [x]

/-- getNetworks (lines 106-115): iterates the storageKeys generator and
collects parts[1] of each matching key.  A missing parts[1] is JavaScript
undefined; it is modelled by the empty string, a branch the empty iteration
never reaches. -/
def getNetworks (st : KeyStoreState) : List String :=
  (storageKeys st).iterated.foldl
    (fun acc key =>
      if key.startsWith st.pre then
        addUnique acc ((keyParts st key).getD 1 "")
      else acc)
    []

/-- getAccounts (lines 121-132): iterates the storageKeys generator and
collects parts[0] of each key whose parts[1] equals the network id. -/
def getAccounts (st : KeyStoreState) (networkId : String) : List String :=
  (storageKeys st).iterated.foldl
    (fun acc key =>
      if key.startsWith st.pre then
        if (keyParts st key).getD 1 "" = networkId then
          acc ++ [(keyParts st key).getD 0 ""]
        else acc
      else acc)
    []

/-- clear (lines 92-100): iterates the storageKeys generator and removes each
matching key.  On a plain object the removeItem call would actually throw at
runtime; it is modelled as a deletion, and the empty iteration never reaches
it either way. -/
def clear (st : KeyStoreState) : KeyStoreState :=
  (storageKeys st).iterated.foldl
    (fun acc key =>
      if key.startsWith acc.pre then
        { acc with localStorage := objDelete acc.localStorage key }
      else acc)
    st

/-- Reading a key just written by the object spread yields the new value. -/
theorem objGet_cons (pr : String × String) (st : Store) (k : String) :
    objGet (pr :: st) k = if pr.1 == k then some pr.2 else objGet st k := by
  unfold objGet
  rw [List.find?_cons]
  cases h : (pr.1 == k) <;> simp [h]

/-- Whether a cons store has a property: the head matches or the tail has it. -/
theorem objHas_cons (pr : String × String) (st : Store) (k : String) :
    ((pr :: st).find? (fun q => q.1 == k)).isSome
      = ((pr.1 == k) || (st.find? (fun q => q.1 == k)).isSome) := by
  rw [List.find?_cons]
  cases h : (pr.1 == k) <;> simp [h]

theorem objGet_objSet_self (st : Store) (k v : String) :
    objGet (objSet st k v) k = some v := by
  unfold objSet
  split
  case isTrue h =>
    induction st with
    | nil => simp at h
    | cons p ps ih =>
      rw [objHas_cons] at h
      rw [List.map_cons]
      by_cases hp : (p.1 == k) = true
      · rw [if_pos hp, objGet_cons]
        simp
      · have hp' : (p.1 == k) = false := by
          cases hb : (p.1 == k)
          · rfl
          · exact absurd hb hp
        rw [hp'] at h
        simp only [Bool.false_or] at h
        rw [if_neg hp, objGet_cons, if_neg hp]
        exact ih h
  case isFalse h =>
    induction st with
    | nil =>
      rw [List.nil_append, objGet_cons]
      simp
    | cons p ps ih =>
      rw [objHas_cons] at h
      by_cases hp : (p.1 == k) = true
      · rw [hp] at h
        simp at h
      · have hp' : (p.1 == k) = false := by
          cases hb : (p.1 == k)
          · rfl
          · exact absurd hb hp
        rw [hp'] at h
        simp only [Bool.false_or] at h
        rw [List.cons_append, objGet_cons, if_neg hp]
        exact ih h

/-- Reading a key just deleted yields nothing. -/
theorem objGet_objDelete_self (st : Store) (k : String) :
    objGet (objDelete st k) k = none := by
  unfold objDelete
  induction st with
  | nil => rfl
  | cons p ps ih =>
    rw [List.filter_cons]
    by_cases hp : (p.1 == k) = true
    · have hd : (p.1 != k) = false := by simp [bne, hp]
      rw [hd, if_neg Bool.false_ne_true]
      exact ih
    · have hd : (p.1 != k) = true := by
        simp only [bne]
        cases hb : (p.1 == k)
        · rfl
        · exact absurd hb hp
      rw [hd, if_pos rfl, objGet_cons, if_neg hp]
      exact ih

end KeyStoreBrowser

namespace KeyStoreBrowser

/-- A fresh instance state: the constructor assigns an empty object to
this.localStorage and stores the default storage key tag. -/
def emptyKeyStore : KeyStoreState := ⟨[], LOCAL_STORAGE_KEY_PREFIX⟩

/-- A concrete well-formed key pair encoding. -/
def sampleKeyPair : KeyPair := ⟨"ed25519:4rDhj"⟩

end KeyStoreBrowser

/-- C8: on one BrowserLocalStorageKeyStore instance, setKey followed by getKey
for the same (networkId, accountId) returns a key pair whose string encoding
equals the stored pair's toString; getKey returns null when nothing is stored
under that pair's storage key; and after removeKey, getKey returns null. -/
theorem C8_set_get_remove_roundtrip
    (st st2 : KeyStoreBrowser.KeyStoreState) (networkId accountId : String)
    (kp : KeyStoreBrowser.KeyPair) (hwf : kp.wf)
    (hnone : KeyStoreBrowser.objGet st2.localStorage
        (KeyStoreBrowser.storageKeyForSecretKey st2 networkId accountId) = none) :
    KeyStoreBrowser.getKey
        (KeyStoreBrowser.setKey st networkId accountId kp) networkId accountId
        = some (KeyStoreBrowser.KeyPair.fromStr kp.toStr)
      ∧ (KeyStoreBrowser.KeyPair.fromStr kp.toStr).toStr = kp.toStr
      ∧ KeyStoreBrowser.getKey st2 networkId accountId = none
      ∧ KeyStoreBrowser.getKey
          (KeyStoreBrowser.removeKey st networkId accountId) networkId accountId
          = none := by
  refine ⟨?_, rfl, ?_, ?_⟩
  · have h2 : KeyStoreBrowser.objGet
        (KeyStoreBrowser.setKey st networkId accountId kp).localStorage
        (KeyStoreBrowser.storageKeyForSecretKey
          (KeyStoreBrowser.setKey st networkId accountId kp) networkId accountId)
        = some kp.toStr :=
      KeyStoreBrowser.objGet_objSet_self st.localStorage
        (KeyStoreBrowser.storageKeyForSecretKey st networkId accountId) kp.toStr
    unfold KeyStoreBrowser.getKey
    rw [h2]
    show (if kp.toStr = "" then none
          else some (KeyStoreBrowser.KeyPair.fromStr kp.toStr))
        = some (KeyStoreBrowser.KeyPair.fromStr kp.toStr)
    exact if_neg hwf
  · unfold KeyStoreBrowser.getKey
    rw [hnone]
  · have h3 : KeyStoreBrowser.objGet
        (KeyStoreBrowser.removeKey st networkId accountId).localStorage
        (KeyStoreBrowser.storageKeyForSecretKey
          (KeyStoreBrowser.removeKey st networkId accountId) networkId accountId)
        = none :=
      KeyStoreBrowser.objGet_objDelete_self st.localStorage
        (KeyStoreBrowser.storageKeyForSecretKey st networkId accountId)
    unfold KeyStoreBrowser.getKey
    rw [h3]

/-- C8 witness at a fresh instance and a concrete key pair. -/
theorem C8_set_get_remove_roundtrip_witness :
    KeyStoreBrowser.getKey
        (KeyStoreBrowser.setKey KeyStoreBrowser.emptyKeyStore "testnet"
          "alice.near" KeyStoreBrowser.sampleKeyPair) "testnet" "alice.near"
        = some (KeyStoreBrowser.KeyPair.fromStr
            KeyStoreBrowser.sampleKeyPair.toStr)
      ∧ (KeyStoreBrowser.KeyPair.fromStr
          KeyStoreBrowser.sampleKeyPair.toStr).toStr
          = KeyStoreBrowser.sampleKeyPair.toStr
      ∧ KeyStoreBrowser.getKey KeyStoreBrowser.emptyKeyStore "testnet"
          "alice.near" = none
      ∧ KeyStoreBrowser.getKey
          (KeyStoreBrowser.removeKey KeyStoreBrowser.emptyKeyStore "testnet"
            "alice.near") "testnet" "alice.near" = none :=
  C8_set_get_remove_roundtrip KeyStoreBrowser.emptyKeyStore
    KeyStoreBrowser.emptyKeyStore "testnet" "alice.near"
    KeyStoreBrowser.sampleKeyPair
    (show ("ed25519:4rDhj" : String) ≠ "" by decide) rfl

/-- C9: because the storageKeys generator's body is a lone return statement —
it returns Object.values(this.localStorage) instead of yielding — every
for..of iteration over it is empty, so getNetworks returns the empty list,
getAccounts returns the empty list for every networkId, and clear leaves the
whole state (every stored entry) unchanged, for every instance state. -/
theorem C9_storageKeys_iteration_empty (st : KeyStoreBrowser.KeyStoreState)
    (networkId : String) :
    (KeyStoreBrowser.storageKeys st).iterated = []
      ∧ KeyStoreBrowser.getNetworks st = []
      ∧ KeyStoreBrowser.getAccounts st networkId = []
      ∧ KeyStoreBrowser.clear st = st :=
  ⟨rfl, rfl, rfl, rfl⟩

namespace Conn

/- Embedding of the connection module (src/unnamed/part_000): getProvider,
getSigner and Connection.fromConfig.  JsonRpcProvider and InMemorySigner are
external classes from ./providers and ./signer (not in the visible slice);
each constructed instance is represented by a tagged value carrying exactly
the constructor argument the source passes. -/

/-- The provider part of the connection config: an optional type tag and the
args payload a JsonRpcProvider would be constructed from.  When the type tag
is absent the config object itself already is the provider. -/
structure ProviderConfig where
  type : Option String
  args : List (String × String)
deriving DecidableEq, Repr

/-- A provider as getProvider returns it: the config object used as-is, or a
new JsonRpcProvider built from a copy of config.args (Object.assign onto a
fresh object copies the payload verbatim). -/
inductive Provider where
  | asIs (cfg : ProviderConfig)
  | jsonRpc (args : List (String × String))
deriving DecidableEq, Repr

/-- The signer part of the connection config: an optional type tag and the
keyStore an InMemorySigner would be constructed from. -/
structure SignerConfig where
  type : Option String
  keyStore : String
deriving DecidableEq, Repr

/-- A signer as getSigner returns it: the config object used as-is, or a new
InMemorySigner built from config.keyStore. -/
inductive SignerValue where
  | asIs (cfg : SignerConfig)
  | inMemory (keyStore : String)
deriving DecidableEq, Repr

/-- getProvider (part_000 lines 10-17): switch on config.type — undefined
returns the config unchanged, the JsonRpcProvider tag constructs a new
instance from config.args, anything else throws. -/
def getProvider (config : ProviderConfig) : Except String Provider :=
  match config.type with
  | none => .ok (.asIs config)
  | some t =>
      if t = "JsonRpcProvider" then .ok (.jsonRpc config.args)
      else .error ("Unknown provider type " ++ t)

/-- getSigner (part_000 lines 22-32): switch on config.type — undefined
returns the config unchanged, the InMemorySigner tag constructs a new
instance from config.keyStore, anything else throws. -/
def getSigner (config : SignerConfig) : Except String SignerValue :=
  match config.type with
  | none => .ok (.asIs config)
  | some t =>
      if t = "InMemorySigner" then .ok (.inMemory config.keyStore)
      else .error ("Unknown signer type " ++ t)

/-- The config Connection.fromConfig receives. -/
structure ConnectionConfig where
  networkId : String
  provider : ProviderConfig
  signer : SignerConfig
  jsvmAccountId : String
deriving DecidableEq, Repr

/-- The Connection the constructor assembles (part_000 lines 37-42). -/
structure Connection where
  networkId : String
  provider : Provider
  signer : SignerValue
  jsvmAccountId : String
deriving DecidableEq, Repr

/-- Connection.fromConfig (part_000 lines 46-50): resolves the provider and
the signer, then builds the Connection from config.networkId and
config.jsvmAccountId verbatim.  A throw in either helper propagates. -/
def Connection.fromConfig (config : ConnectionConfig) :
    Except String Connection := do
  let provider ← getProvider config.provider
  let signer ← getSigner config.signer
  return ⟨config.networkId, provider, signer, config.jsvmAccountId⟩

/-- A concrete config whose provider and signer are passed as-is. -/
def sampleConfig : ConnectionConfig :=
  { networkId := "testnet"
    provider := { type := none, args := [("url", "rpc.example")] }
    signer := { type := none, keyStore := "ks0" }
    jsvmAccountId := "jsvm.testnet" }

end Conn

/-- C10: Connection.fromConfig resolves its parts exactly as the source's
switches do — an undefined provider (signer) type uses the object as-is; the
JsonRpcProvider (InMemorySigner) tag constructs a new instance from
config.provider.args (config.signer.keyStore); any other tag throws; and a
successfully built Connection copies config.networkId and
config.jsvmAccountId verbatim. -/
theorem C10_fromConfig_dispatch
    (pc : Conn.ProviderConfig) (sc : Conn.SignerConfig) (t u : String)
    (cfg : Conn.ConnectionConfig) (conn : Conn.Connection)
    (hpt : t ≠ "JsonRpcProvider") (hst : u ≠ "InMemorySigner")
    (hok : Conn.Connection.fromConfig cfg = .ok conn) :
    (pc.type = none → Conn.getProvider pc = .ok (.asIs pc))
      ∧ (pc.type = some "JsonRpcProvider"
          → Conn.getProvider pc = .ok (.jsonRpc pc.args))
      ∧ (pc.type = some t
          → Conn.getProvider pc = .error ("Unknown provider type " ++ t))
      ∧ (sc.type = none → Conn.getSigner sc = .ok (.asIs sc))
      ∧ (sc.type = some "InMemorySigner"
          → Conn.getSigner sc = .ok (.inMemory sc.keyStore))
      ∧ (sc.type = some u
          → Conn.getSigner sc = .error ("Unknown signer type " ++ u))
      ∧ conn.networkId = cfg.networkId
      ∧ conn.jsvmAccountId = cfg.jsvmAccountId := by
  refine ⟨?_, ?_, ?_, ?_, ?_, ?_, ?_, ?_⟩
  · intro h; simp [Conn.getProvider, h]
  · intro h; simp [Conn.getProvider, h]
  · intro h; simp [Conn.getProvider, h, hpt]
  · intro h; simp [Conn.getSigner, h]
  · intro h; simp [Conn.getSigner, h]
  · intro h; simp [Conn.getSigner, h, hst]
  all_goals
    unfold Conn.Connection.fromConfig at hok
    cases hp : Conn.getProvider cfg.provider with
    | error e => rw [hp] at hok; cases hok
    | ok p =>
      cases hs : Conn.getSigner cfg.signer with
      | error e => rw [hp, hs] at hok; cases hok
      | ok s =>
        rw [hp, hs] at hok
        cases hok
        rfl

/-- C10 witness at a concrete config. -/
theorem C10_fromConfig_dispatch_witness :
    ((Conn.sampleConfig.provider.type = none
        → Conn.getProvider Conn.sampleConfig.provider
            = .ok (.asIs Conn.sampleConfig.provider))
      ∧ (Conn.sampleConfig.provider.type = some "JsonRpcProvider"
          → Conn.getProvider Conn.sampleConfig.provider
              = .ok (.jsonRpc Conn.sampleConfig.provider.args))
      ∧ (Conn.sampleConfig.provider.type = some "Custom"
          → Conn.getProvider Conn.sampleConfig.provider
              = .error ("Unknown provider type " ++ "Custom"))
      ∧ (Conn.sampleConfig.signer.type = none
          → Conn.getSigner Conn.sampleConfig.signer
              = .ok (.asIs Conn.sampleConfig.signer))
      ∧ (Conn.sampleConfig.signer.type = some "InMemorySigner"
          → Conn.getSigner Conn.sampleConfig.signer
              = .ok (.inMemory Conn.sampleConfig.signer.keyStore))
      ∧ (Conn.sampleConfig.signer.type = some "Ledger"
          → Conn.getSigner Conn.sampleConfig.signer
              = .error ("Unknown signer type " ++ "Ledger"))
      ∧ (Conn.Connection.mk "testnet" (.asIs Conn.sampleConfig.provider)
          (.asIs Conn.sampleConfig.signer) "jsvm.testnet").networkId
          = Conn.sampleConfig.networkId
      ∧ (Conn.Connection.mk "testnet" (.asIs Conn.sampleConfig.provider)
          (.asIs Conn.sampleConfig.signer) "jsvm.testnet").jsvmAccountId
          = Conn.sampleConfig.jsvmAccountId) :=
  C10_fromConfig_dispatch Conn.sampleConfig.provider Conn.sampleConfig.signer
    "Custom" "Ledger" Conn.sampleConfig
    (Conn.Connection.mk "testnet" (.asIs Conn.sampleConfig.provider)
      (.asIs Conn.sampleConfig.signer) "jsvm.testnet")
    (by decide) (by decide) rfl

namespace NonceAlloc

/- Modelled from the spec: the NonceAllocator (spec sections 4.2 and 5) is
part of the transaction pipeline whose code is not in the visible repository
slice.  Per the spec it keeps a mapping keyed by (accountId, publicKey) to
the last nonce issued; on a cache miss it seeds the entry from the access
key's current on-chain nonce, and every reserve call atomically increments
the cached value and returns cached + 1 before any I/O.  Section 5 makes the
reservation step the sole synchronization point, atomic and mutually
exclusive between concurrent callers on the same key, so any concurrent
burst of N reservations executes as some sequence of these atomic steps;
the sequential composition below is therefore the faithful model of every
interleaving. -/

/-- The allocator's cache: last issued nonce per (accountId, publicKey). -/
def NonceCache : Type := (String × String) → Option Nat

/-- The cold cache a fresh allocator starts from. -/
def emptyCache : NonceCache := fun _ => none

/-- Modelled from the spec: reserve(accountId, publicKey).  onChainNonce is
the value a cache-miss query of NetworkClient returns (the on-chain nonce at
the time of the first reservation); the call seeds the entry on a miss, then
atomically increments and returns cached + 1. -/
def reserve (accountId publicKey : String) (onChainNonce : Nat)
    (c : NonceCache) : Nat × NonceCache :=
  match c (accountId, publicKey) with
  | none =>
      (onChainNonce + 1,
       fun k =>
         if k = (accountId, publicKey) then some (onChainNonce + 1) else c k)
  | some cached =>
      (cached + 1,
       fun k =>
         if k = (accountId, publicKey) then some (cached + 1) else c k)

/-- N serialized reserve calls for the same (accountId, publicKey): the
nonces issued in order and the final cache. -/
def reserveSeq (accountId publicKey : String) (base : Nat) :
    Nat → NonceCache → List Nat × NonceCache
  | 0, c => ([], c)
  | n + 1, c =>
      let r := reserve accountId publicKey base c
      let rest := reserveSeq accountId publicKey base n r.2
      (r.1 :: rest.1, rest.2)

/-- From a warm cache holding v, N reservations issue v+1, ..., v+N in order
and leave the cache at v+N. -/
theorem reserveSeq_warm (accountId publicKey : String) (base n : Nat) :
    ∀ (c : NonceCache) (v : Nat), c (accountId, publicKey) = some v →
      (reserveSeq accountId publicKey base n c).1 = List.range' (v + 1) n
      ∧ (reserveSeq accountId publicKey base n c).2 (accountId, publicKey)
          = some (v + n) := by
  induction n with
  | zero =>
    intro c v h
    exact ⟨rfl, h⟩
  | succ n ih =>
    intro c v h
    have hr : reserve accountId publicKey base c
        = (v + 1,
           fun k =>
             if k = (accountId, publicKey) then some (v + 1) else c k) := by
      unfold reserve
      rw [h]
    have hc' : (fun k =>
        if k = (accountId, publicKey) then some (v + 1) else c k)
          (accountId, publicKey) = some (v + 1) := by
      simp
    obtain ⟨h1, h2⟩ := ih
      (fun k => if k = (accountId, publicKey) then some (v + 1) else c k)
      (v + 1) hc'
    constructor
    · show (reserve accountId publicKey base c).1
          :: (reserveSeq accountId publicKey base n
               (reserve accountId publicKey base c).2).1
          = List.range' (v + 1) (n + 1)
      rw [hr]
      rw [List.range'_succ]
      exact congrArg _ h1
    · show (reserveSeq accountId publicKey base n
          (reserve accountId publicKey base c).2).2 (accountId, publicKey)
          = some (v + (n + 1))
      rw [hr]
      rw [h2]
      exact congrArg some (by omega)

end NonceAlloc

/-- C4: starting from a cold cache whose on-chain nonce is base, any
concurrent burst of N reserve calls for the same (accountId, publicKey) —
serialized through the atomic reservation step, as the spec's concurrency
model dictates — issues exactly the nonces base+1, ..., base+N in order: no
duplicate, no gap, each call atomically incrementing the cached value and
returning cached + 1 before any I/O. -/
theorem C4_reserve_issues_consecutive_nonces (accountId publicKey : String)
    (base n : Nat) :
    (NonceAlloc.reserveSeq accountId publicKey base n NonceAlloc.emptyCache).1
        = List.range' (base + 1) n
      ∧ (NonceAlloc.reserveSeq accountId publicKey base n
          NonceAlloc.emptyCache).1.Nodup
      ∧ ∀ k,
          k ∈ (NonceAlloc.reserveSeq accountId publicKey base n
            NonceAlloc.emptyCache).1
            ↔ (base + 1 ≤ k ∧ k ≤ base + n) := by
  have hmain : (NonceAlloc.reserveSeq accountId publicKey base n
      NonceAlloc.emptyCache).1 = List.range' (base + 1) n := by
    cases n with
    | zero => rfl
    | succ m =>
      have hr : NonceAlloc.reserve accountId publicKey base
          NonceAlloc.emptyCache
          = (base + 1,
             fun k =>
               if k = (accountId, publicKey) then some (base + 1)
               else NonceAlloc.emptyCache k) := rfl
      have hc' : (fun k =>
          if k = (accountId, publicKey) then some (base + 1)
          else NonceAlloc.emptyCache k) (accountId, publicKey)
            = some (base + 1) := by simp
      obtain ⟨h1, _⟩ :=
        NonceAlloc.reserveSeq_warm accountId publicKey base m
          (fun k =>
            if k = (accountId, publicKey) then some (base + 1)
            else NonceAlloc.emptyCache k)
          (base + 1) hc'
      show (NonceAlloc.reserve accountId publicKey base
            NonceAlloc.emptyCache).1
          :: (NonceAlloc.reserveSeq accountId publicKey base m
               (NonceAlloc.reserve accountId publicKey base
                 NonceAlloc.emptyCache).2).1
          = List.range' (base + 1) (m + 1)
      rw [hr, List.range'_succ]
      exact congrArg _ h1
  refine ⟨hmain, ?_, ?_⟩
  · rw [hmain]
    exact List.nodup_range' _ _
  · intro k
    rw [hmain]
    rw [List.mem_range'_1]
    omega

namespace Submit

/- Modelled from the spec: the Submitter (spec section 4.4) is part of the
pipeline whose code is not in the visible repository slice.  It broadcasts
the already-signed transaction bytes, classifies NetworkClient failures as
transient / already-exists / fatal, retries transient failures by
re-broadcasting the same signed bytes up to an attempt cap, treats
already-exists as success by switching to polling for the transaction
hash's outcome, and surfaces fatal failures immediately; exhausting the cap
yields RetryExhaustedError.  The network's committed outcome for one
transaction hash is a function of that hash (one logical transaction has one
canonical outcome), abstracted as the poll parameter; the digest parameter
abstracts the cryptographic hash of the signed bytes. -/

/-- What the network answers one broadcast attempt with. -/
inductive BroadcastResp where
  | transient
  | accepted
  | alreadyKnown
  | fatalErr (kind : String)
deriving DecidableEq, Repr

/-- What a submission run resolves to. -/
inductive SubmitResult (α : Type) where
  | outcome (o : α)
  | fatalErr (kind : String)
  | retryExhausted
deriving DecidableEq, Repr

/-- Modelled from the spec: the Submitter's broadcast-and-retry loop.  net
maps the attempt index to the network's answer; the remaining attempt budget
bounds the loop.  Returns the list of byte strings actually broadcast, in
order, and the result: an accepted or already-known broadcast resolves by
polling the outcome of the bytes' hash, a fatal answer is surfaced at once,
and a transient answer re-broadcasts the same bytes on the next attempt. -/
def submit {α : Type} (poll : Nat → α) (digest : List Nat → Nat)
    (bytes : List Nat) (net : Nat → BroadcastResp) :
    Nat → Nat → List (List Nat) × SubmitResult α
  | _, 0 => ([], .retryExhausted)
  | attempt, fuel + 1 =>
      match net attempt with
      | .transient =>
          let rest := submit poll digest bytes net (attempt + 1) fuel
          (bytes :: rest.1, rest.2)
      | .accepted => ([bytes], .outcome (poll (digest bytes)))
      | .alreadyKnown => ([bytes], .outcome (poll (digest bytes)))
      | .fatalErr k => ([bytes], .fatalErr k)

end Submit

/-- C5: throughout the retry loop every broadcast re-sends exactly the same
already-signed transaction bytes (nothing is ever re-signed: the loop has no
signing step and the nonce inside the bytes cannot change), and every run
that resolves to an outcome resolves to the one canonical outcome of the
bytes' hash — in particular, when the original broadcast actually landed and
a retry draws already-known, the pipeline polls that same hash, so two runs
can never report two distinct outcomes for one logical transaction. -/
theorem C5_same_bytes_single_outcome {α : Type} (poll : Nat → α)
    (digest : List Nat → Nat) (bytes : List Nat)
    (net : Nat → Submit.BroadcastResp) (attempt fuel : Nat) :
    (∀ b ∈ (Submit.submit poll digest bytes net attempt fuel).1, b = bytes)
      ∧ ∀ o : α,
          (Submit.submit poll digest bytes net attempt fuel).2
              = Submit.SubmitResult.outcome o
            → o = poll (digest bytes) := by
  induction fuel generalizing attempt with
  | zero =>
    refine ⟨?_, ?_⟩
    · intro b hb
      exact absurd hb (List.not_mem_nil b)
    · intro o ho
      cases ho
  | succ fuel ih =>
    obtain ⟨ih1, ih2⟩ := ih (attempt + 1)
    unfold Submit.submit
    cases net attempt with
    | transient =>
      refine ⟨?_, ih2⟩
      intro b hb
      cases List.mem_cons.mp hb with
      | inl h => exact h
      | inr h => exact ih1 b h
    | accepted =>
      refine ⟨?_, ?_⟩
      · intro b hb
        simpa using List.mem_singleton.mp hb
      · intro o ho
        cases ho
        rfl
    | alreadyKnown =>
      refine ⟨?_, ?_⟩
      · intro b hb
        simpa using List.mem_singleton.mp hb
      · intro o ho
        cases ho
        rfl
    | fatalErr k =>
      refine ⟨?_, ?_⟩
      · intro b hb
        simpa using List.mem_singleton.mp hb
      · intro o ho
        cases ho

namespace ConflictRetry

/- Modelled from the spec: the nonce-conflict recovery policy (spec section 7
and the section 8 scenario) belongs to the pipeline whose code is not in the
visible repository slice.  On an invalid-nonce rejection the pipeline
invalidates the cached entry, re-queries on-chain state, re-signs with the
corrected nonce and retries exactly once; a second consecutive conflict is
surfaced as fatal.  queryNonce maps the query index to the on-chain nonce the
NetworkClient reports at that point (index 0: the initial cold-cache lookup,
index 1: the re-query after invalidation); resp maps the broadcast index to
the network's answer. -/

/-- The network's answer to one broadcast of this submission. -/
inductive NetResp where
  | accepted
  | invalidNonce
  | otherFatal (kind : String)
deriving DecidableEq, Repr

/-- How one submission resolves. -/
inductive PipeResult where
  | success (nonce : Nat)
  | nonceConflictFatal
  | fatalOther (kind : String)
deriving DecidableEq, Repr

/-- The nonce the first signing uses: cached + 1 from a warm cache, else
on-chain + 1 from the initial query. -/
def firstNonce (queryNonce : Nat → Nat) (cache : Option Nat) : Nat :=
  match cache with
  | some c => c + 1
  | none => queryNonce 0 + 1

/-- Modelled from the spec: one submission with the conflict-retry policy.
Returns the nonces signed and broadcast, in order (each list entry is one
re-sign plus one broadcast), and the result.  The first invalid-nonce answer
invalidates the cache, re-queries (queryNonce 1), re-signs with the corrected
nonce and retries once; a second invalid-nonce answer is fatal and is not
retried. -/
def sendWithConflictRetry (queryNonce : Nat → Nat) (resp : Nat → NetResp)
    (cache : Option Nat) : List Nat × PipeResult :=
  let n1 := firstNonce queryNonce cache
  match resp 0 with
  | .accepted => ([n1], .success n1)
  | .otherFatal k => ([n1], .fatalOther k)
  | .invalidNonce =>
      let n2 := queryNonce 1 + 1
      match resp 1 with
      | .accepted => ([n1, n2], .success n2)
      | .otherFatal k => ([n1, n2], .fatalOther k)
      | .invalidNonce => ([n1, n2], .nonceConflictFatal)

end ConflictRetry

/-- C6: when the first broadcast is rejected with invalid-nonce, the pipeline
signs and broadcasts exactly twice — the retried broadcast re-signed with the
corrected nonce, on-chain + 1 from the post-invalidation re-query; if the
retry is accepted the submission succeeds with that corrected nonce, and a
second consecutive invalid-nonce is surfaced as the fatal nonce-conflict
without any further retry. -/
theorem C6_nonce_conflict_retried_once (queryNonce : Nat → Nat)
    (resp : Nat → ConflictRetry.NetResp) (cache : Option Nat)
    (hconf : resp 0 = .invalidNonce) :
    (ConflictRetry.sendWithConflictRetry queryNonce resp cache).1
        = [ConflictRetry.firstNonce queryNonce cache, queryNonce 1 + 1]
      ∧ (resp 1 = .accepted
          → (ConflictRetry.sendWithConflictRetry queryNonce resp cache).2
              = .success (queryNonce 1 + 1))
      ∧ (resp 1 = .invalidNonce
          → (ConflictRetry.sendWithConflictRetry queryNonce resp cache).2
              = .nonceConflictFatal) := by
  unfold ConflictRetry.sendWithConflictRetry
  rw [hconf]
  refine ⟨?_, ?_, ?_⟩
  · cases h1 : resp 1 <;> rfl
  · intro h1
    rw [h1]
  · intro h1
    rw [h1]

/-- C6 witness at the spec's section 8 scenario: the cache held 5, the key
was used elsewhere meanwhile, the re-query reports on-chain nonce 7, and the
retry re-signed with nonce 8 succeeds. -/
theorem C6_nonce_conflict_retried_once_witness :
    (ConflictRetry.sendWithConflictRetry
        (fun i => if i = 0 then 5 else 7)
        (fun i => if i = 0 then .invalidNonce else .accepted)
        (some 5)).1
        = [ConflictRetry.firstNonce (fun i => if i = 0 then 5 else 7) (some 5),
           (fun i : Nat => if i = 0 then 5 else 7) 1 + 1]
      ∧ ((fun i : Nat =>
            if i = 0 then ConflictRetry.NetResp.invalidNonce
            else ConflictRetry.NetResp.accepted) 1
            = ConflictRetry.NetResp.accepted
          → (ConflictRetry.sendWithConflictRetry
              (fun i => if i = 0 then 5 else 7)
              (fun i => if i = 0 then .invalidNonce else .accepted)
              (some 5)).2
              = .success ((fun i : Nat => if i = 0 then 5 else 7) 1 + 1))
      ∧ ((fun i : Nat =>
            if i = 0 then ConflictRetry.NetResp.invalidNonce
            else ConflictRetry.NetResp.accepted) 1
            = ConflictRetry.NetResp.invalidNonce
          → (ConflictRetry.sendWithConflictRetry
              (fun i => if i = 0 then 5 else 7)
              (fun i => if i = 0 then .invalidNonce else .accepted)
              (some 5)).2
              = .nonceConflictFatal) :=
  C6_nonce_conflict_retried_once
    (fun i => if i = 0 then 5 else 7)
    (fun i => if i = 0 then .invalidNonce else .accepted)
    (some 5) rfl

namespace Encode

/- Modelled from the spec: the TransactionEncoder (spec section 4.1) is part
of the pipeline whose code is not in the visible repository slice.  Per the
spec, fields are serialized in a fixed order using fixed-width little-endian
integers for numeric fields, length-prefixed byte strings for variable-length
fields, and a discriminant byte ahead of each tagged Action variant followed
by that variant's fields in declaration order; encoding fails with an
EncodingError when a field violates its size or range constraint.  Bytes are
modelled as natural numbers; a byte-string field's elements are emitted
verbatim. -/

/-- w-byte little-endian encoding of n (least significant byte first). -/
def leBytes : Nat → Nat → List Nat
  | 0, _ => []
  | w + 1, n => n % 256 :: leBytes w (n / 256)

/-- The fixed width of a little-endian field. -/
theorem leBytes_length (w : Nat) : ∀ n, (leBytes w n).length = w := by
  induction w with
  | zero => intro n; rfl
  | succ w ih =>
    intro n
    show (leBytes w (n / 256)).length + 1 = w + 1
    rw [ih]

/-- Within its width's range the little-endian encoding is injective. -/
theorem leBytes_inj (w : Nat) : ∀ m n, m < 256 ^ w → n < 256 ^ w →
    leBytes w m = leBytes w n → m = n := by
  induction w with
  | zero =>
    intro m n hm hn _
    omega
  | succ w ih =>
    intro m n hm hn h
    have h1 : m % 256 = n % 256 := (List.cons.injEq .. ▸ h).1
    have h2 : leBytes w (m / 256) = leBytes w (n / 256) :=
      (List.cons.injEq .. ▸ h).2
    have hm' : m / 256 < 256 ^ w := by
      rw [Nat.div_lt_iff_lt_mul (by omega)]
      calc m < 256 ^ (w + 1) := hm
        _ = 256 ^ w * 256 := by rw [Nat.pow_succ]
    have hn' : n / 256 < 256 ^ w := by
      rw [Nat.div_lt_iff_lt_mul (by omega)]
      calc n < 256 ^ (w + 1) := hn
        _ = 256 ^ w * 256 := by rw [Nat.pow_succ]
    have h3 : m / 256 = n / 256 := ih _ _ hm' hn' h2
    omega

/-- Prefix determinism of an encoder with respect to its well-formedness
check: from equal continuations the encoded value and the rest are both
recovered — the property that makes a concatenation of such encoders
injective. -/
def PdOn {α : Type} (enc : α → List Nat) (wf : α → Bool) : Prop :=
  ∀ a b r s, wf a = true → wf b = true →
    enc a ++ r = enc b ++ s → a = b ∧ r = s

/-- A fixed-width field determines itself and the rest of the stream. -/
theorem leBytes_pd (w : Nat) (m n : Nat) (r s : List Nat)
    (hm : m < 256 ^ w) (hn : n < 256 ^ w)
    (h : leBytes w m ++ r = leBytes w n ++ s) : m = n ∧ r = s := by
  have hlen : (leBytes w m).length = (leBytes w n).length := by
    rw [leBytes_length, leBytes_length]
  obtain ⟨h1, h2⟩ := List.append_inj h hlen
  exact ⟨leBytes_inj w m n hm hn h1, h2⟩

/-- A fixed-width unsigned field: the spec's u64 (w = 8) and u128 (w = 16)
numeric fields. -/
def encU (w n : Nat) : List Nat := leBytes w n

/-- The range constraint of a w-byte unsigned field. -/
def wfU (w n : Nat) : Bool := n < 256 ^ w

theorem encU_pd (w : Nat) : PdOn (encU w) (wfU w) := by
  intro a b r s ha hb h
  exact leBytes_pd w a b r s (by simpa [wfU] using ha)
    (by simpa [wfU] using hb) h

/-- A length-prefixed byte string: u32 length, then the bytes verbatim. -/
def encBytes (bs : List Nat) : List Nat := leBytes 4 bs.length ++ bs

/-- The u32 length constraint of a variable-length field. -/
def wfBytes (bs : List Nat) : Bool := bs.length < 256 ^ 4

theorem encBytes_pd : PdOn encBytes wfBytes := by
  intro a b r s ha hb h
  rw [encBytes, encBytes, List.append_assoc, List.append_assoc] at h
  obtain ⟨hlen, h2⟩ := leBytes_pd 4 a.length b.length _ _
    (by simpa [wfBytes] using ha) (by simpa [wfBytes] using hb) h
  obtain ⟨h3, h4⟩ := List.append_inj h2 hlen
  exact ⟨h3, h4⟩

/-- An optional field: a presence byte, then the value when present. -/
def encOpt (enc : Nat → List Nat) : Option Nat → List Nat
  | none => [0]
  | some a => 1 :: enc a

def wfOpt (wf : Nat → Bool) : Option Nat → Bool
  | none => true
  | some a => wf a

theorem encOpt_pd (enc : Nat → List Nat) (wf : Nat → Bool)
    (hpd : PdOn enc wf) : PdOn (encOpt enc) (wfOpt wf) := by
  intro a b r s ha hb h
  cases a with
  | none =>
    cases b with
    | none =>
      refine ⟨rfl, ?_⟩
      simpa [encOpt] using h
    | some vb =>
      exfalso
      simp [encOpt] at h
  | some va =>
    cases b with
    | none =>
      exfalso
      simp [encOpt] at h
    | some vb =>
      simp only [encOpt, List.cons_append, List.cons.injEq] at h
      obtain ⟨hv, h2⟩ := hpd va vb r s (by simpa [wfOpt] using ha)
        (by simpa [wfOpt] using hb) h.2
      exact ⟨by rw [hv], h2⟩

/-- The body of a count-prefixed vector: each element's encoding in order. -/
def encList {α : Type} (enc : α → List Nat) : List α → List Nat
  | [] => []
  | x :: xs => enc x ++ encList enc xs

/-- A count-prefixed vector: u32 element count, then the elements. -/
def encVec {α : Type} (enc : α → List Nat) (xs : List α) : List Nat :=
  leBytes 4 xs.length ++ encList enc xs

def wfVec {α : Type} (wf : α → Bool) (xs : List α) : Bool :=
  decide (xs.length < 256 ^ 4) && xs.all wf

/-- Equal-length vectors of a prefix-deterministic element encoder decompose
elementwise. -/
theorem encList_pd_of_length {α : Type} (enc : α → List Nat) (wf : α → Bool)
    (hpd : PdOn enc wf) :
    ∀ (xs ys : List α) (r s : List Nat), xs.length = ys.length →
      xs.all wf = true → ys.all wf = true →
      encList enc xs ++ r = encList enc ys ++ s → xs = ys ∧ r = s := by
  intro xs
  induction xs with
  | nil =>
    intro ys r s hl _ _ h
    cases ys with
    | nil => exact ⟨rfl, by simpa [encList] using h⟩
    | cons y ys => simp at hl
  | cons x xs ih =>
    intro ys r s hl hwx hwy h
    cases ys with
    | nil => simp at hl
    | cons y ys =>
      rw [encList, encList, List.append_assoc, List.append_assoc] at h
      have hx := List.all_cons .. ▸ hwx
      have hy := List.all_cons .. ▸ hwy
      obtain ⟨hx1, hx2⟩ := Bool.and_eq_true_iff.mp hx
      obtain ⟨hy1, hy2⟩ := Bool.and_eq_true_iff.mp hy
      obtain ⟨hxy, h2⟩ := hpd x y _ _ hx1 hy1 h
      obtain ⟨hxs, h3⟩ := ih ys r s (by simpa using hl) hx2 hy2 h2
      exact ⟨by rw [hxy, hxs], h3⟩

theorem encVec_pd {α : Type} (enc : α → List Nat) (wf : α → Bool)
    (hpd : PdOn enc wf) : PdOn (encVec enc) (wfVec wf) := by
  intro a b r s ha hb h
  obtain ⟨ha1, ha2⟩ := Bool.and_eq_true_iff.mp ha
  obtain ⟨hb1, hb2⟩ := Bool.and_eq_true_iff.mp hb
  rw [encVec, encVec, List.append_assoc, List.append_assoc] at h
  obtain ⟨hlen, h2⟩ := leBytes_pd 4 a.length b.length _ _
    (of_decide_eq_true ha1) (of_decide_eq_true hb1) h
  exact encList_pd_of_length enc wf hpd a b r s hlen ha2 hb2 h2

end Encode

namespace Encode

/-- Modelled from the spec: an access key's permission scope (spec section
3) — full, or restricted to one receiver account and an allow-list of method
names with an optional spending allowance (a u128 amount). -/
inductive Permission where
  | full
  | restricted (allowance : Option Nat) (receiverId : List Nat)
      (methodNames : List (List Nat))
deriving DecidableEq, Repr

/-- Discriminant byte, then the restricted variant's fields in declaration
order. -/
def encPermission : Permission → List Nat
  | .full => [0]
  | .restricted allowance receiverId methodNames =>
      1 :: (encOpt (encU 16) allowance
        ++ (encBytes receiverId ++ encVec encBytes methodNames))

def wfPermission : Permission → Bool
  | .full => true
  | .restricted allowance receiverId methodNames =>
      wfOpt (wfU 16) allowance && wfBytes receiverId
        && wfVec wfBytes methodNames

theorem encPermission_pd : PdOn encPermission wfPermission := by
  intro a b r s ha hb h
  cases a with
  | full =>
    cases b with
    | full =>
      refine ⟨rfl, ?_⟩
      simpa [encPermission] using h
    | restricted ab rb mb =>
      exfalso
      simp [encPermission] at h
  | restricted aa ra ma =>
    cases b with
    | full =>
      exfalso
      simp [encPermission] at h
    | restricted ab rb mb =>
      simp only [encPermission, List.cons_append, List.cons.injEq,
        List.append_assoc] at h
      simp only [wfPermission, Bool.and_eq_true] at ha hb
      obtain ⟨⟨haa1, haa2⟩, haa3⟩ := ha
      obtain ⟨⟨hbb1, hbb2⟩, hbb3⟩ := hb
      obtain ⟨h1, hrest⟩ := encOpt_pd (encU 16) (wfU 16) (encU_pd 16)
        aa ab _ _ haa1 hbb1 h.2
      obtain ⟨h2, hrest2⟩ := encBytes_pd ra rb _ _ haa2 hbb2 hrest
      obtain ⟨h3, hrest3⟩ := encVec_pd encBytes wfBytes encBytes_pd
        ma mb r s haa3 hbb3 hrest2
      exact ⟨by rw [h1, h2, h3], hrest3⟩

/-- Modelled from the spec: an access key (spec section 3) — nonce (u64) and
permission scope. -/
structure AccessKey where
  nonce : Nat
  permission : Permission
deriving DecidableEq, Repr

def encAccessKey (ak : AccessKey) : List Nat :=
  encU 8 ak.nonce ++ encPermission ak.permission

def wfAccessKey (ak : AccessKey) : Bool :=
  wfU 8 ak.nonce && wfPermission ak.permission

theorem encAccessKey_pd : PdOn encAccessKey wfAccessKey := by
  intro a b r s ha hb h
  obtain ⟨ha1, ha2⟩ := Bool.and_eq_true_iff.mp ha
  obtain ⟨hb1, hb2⟩ := Bool.and_eq_true_iff.mp hb
  rw [encAccessKey, encAccessKey, List.append_assoc, List.append_assoc] at h
  obtain ⟨h1, hrest⟩ := encU_pd 8 a.nonce b.nonce _ _ ha1 hb1 h
  obtain ⟨h2, hrest2⟩ := encPermission_pd a.permission b.permission r s
    ha2 hb2 hrest
  cases a
  cases b
  exact ⟨by simp_all, hrest2⟩

/-- Modelled from the spec: the Action tagged union (spec section 3) over
Transfer, FunctionCall, CreateAccount, DeleteAccount, AddKey, DeleteKey,
DeployContract, Stake and Delegate, each with its small fixed set of typed
fields — amounts as u128, gas as u64, method names, arguments, code, keys
and the signed delegate payload as byte strings. -/
inductive Action where
  | createAccount
  | deployContract (code : List Nat)
  | functionCall (methodName : List Nat) (args : List Nat) (gas : Nat)
      (deposit : Nat)
  | transfer (deposit : Nat)
  | stake (amount : Nat) (publicKey : List Nat)
  | addKey (publicKey : List Nat) (accessKey : AccessKey)
  | deleteKey (publicKey : List Nat)
  | deleteAccount (beneficiaryId : List Nat)
  | delegate (payload : List Nat) (signature : List Nat)
deriving DecidableEq, Repr

/-- Discriminant byte in declaration order, then the variant's fields in
declaration order. -/
def encAction : Action → List Nat
  | .createAccount => [0]
  | .deployContract code => 1 :: encBytes code
  | .functionCall methodName args gas deposit =>
      2 :: (encBytes methodName
        ++ (encBytes args ++ (encU 8 gas ++ encU 16 deposit)))
  | .transfer deposit => 3 :: encU 16 deposit
  | .stake amount publicKey => 4 :: (encU 16 amount ++ encBytes publicKey)
  | .addKey publicKey accessKey =>
      5 :: (encBytes publicKey ++ encAccessKey accessKey)
  | .deleteKey publicKey => 6 :: encBytes publicKey
  | .deleteAccount beneficiaryId => 7 :: encBytes beneficiaryId
  | .delegate payload signature =>
      8 :: (encBytes payload ++ encBytes signature)

def wfAction : Action → Bool
  | .createAccount => true
  | .deployContract code => wfBytes code
  | .functionCall methodName args gas deposit =>
      wfBytes methodName && wfBytes args && wfU 8 gas && wfU 16 deposit
  | .transfer deposit => wfU 16 deposit
  | .stake amount publicKey => wfU 16 amount && wfBytes publicKey
  | .addKey publicKey accessKey => wfBytes publicKey && wfAccessKey accessKey
  | .deleteKey publicKey => wfBytes publicKey
  | .deleteAccount beneficiaryId => wfBytes beneficiaryId
  | .delegate payload signature => wfBytes payload && wfBytes signature

theorem encAction_pd : PdOn encAction wfAction := by
  intro a b r s ha hb h
  cases a <;> cases b <;> try (exfalso; simp [encAction] at h; done)
  · refine ⟨rfl, ?_⟩
    simpa [encAction] using h
  · next c1 c2 =>
    simp only [encAction, List.cons_append, List.cons.injEq] at h
    obtain ⟨h1, h2⟩ := encBytes_pd c1 c2 r s (by simpa [wfAction] using ha)
      (by simpa [wfAction] using hb) h.2
    exact ⟨by rw [h1], h2⟩
  · next m1 a1 g1 d1 m2 a2 g2 d2 =>
    simp only [encAction, List.cons_append, List.cons.injEq,
      List.append_assoc] at h
    simp only [wfAction, Bool.and_eq_true] at ha hb
    obtain ⟨⟨⟨ham, haa⟩, hag⟩, had⟩ := ha
    obtain ⟨⟨⟨hbm, hba⟩, hbg⟩, hbd⟩ := hb
    obtain ⟨h1, hr1⟩ := encBytes_pd m1 m2 _ _ ham hbm h.2
    obtain ⟨h2, hr2⟩ := encBytes_pd a1 a2 _ _ haa hba hr1
    obtain ⟨h3, hr3⟩ := encU_pd 8 g1 g2 _ _ hag hbg hr2
    obtain ⟨h4, hr4⟩ := encU_pd 16 d1 d2 r s had hbd hr3
    exact ⟨by rw [h1, h2, h3, h4], hr4⟩
  · next d1 d2 =>
    simp only [encAction, List.cons_append, List.cons.injEq] at h
    obtain ⟨h1, h2⟩ := encU_pd 16 d1 d2 r s (by simpa [wfAction] using ha)
      (by simpa [wfAction] using hb) h.2
    exact ⟨by rw [h1], h2⟩
  · next a1 p1 a2 p2 =>
    simp only [encAction, List.cons_append, List.cons.injEq,
      List.append_assoc] at h
    simp only [wfAction, Bool.and_eq_true] at ha hb
    obtain ⟨h1, hr1⟩ := encU_pd 16 a1 a2 _ _ ha.1 hb.1 h.2
    obtain ⟨h2, hr2⟩ := encBytes_pd p1 p2 r s ha.2 hb.2 hr1
    exact ⟨by rw [h1, h2], hr2⟩
  · next p1 k1 p2 k2 =>
    simp only [encAction, List.cons_append, List.cons.injEq,
      List.append_assoc] at h
    simp only [wfAction, Bool.and_eq_true] at ha hb
    obtain ⟨h1, hr1⟩ := encBytes_pd p1 p2 _ _ ha.1 hb.1 h.2
    obtain ⟨h2, hr2⟩ := encAccessKey_pd k1 k2 r s ha.2 hb.2 hr1
    exact ⟨by rw [h1, h2], hr2⟩
  · next p1 p2 =>
    simp only [encAction, List.cons_append, List.cons.injEq] at h
    obtain ⟨h1, h2⟩ := encBytes_pd p1 p2 r s (by simpa [wfAction] using ha)
      (by simpa [wfAction] using hb) h.2
    exact ⟨by rw [h1], h2⟩
  · next b1 b2 =>
    simp only [encAction, List.cons_append, List.cons.injEq] at h
    obtain ⟨h1, h2⟩ := encBytes_pd b1 b2 r s (by simpa [wfAction] using ha)
      (by simpa [wfAction] using hb) h.2
    exact ⟨by rw [h1], h2⟩
  · next p1 s1 p2 s2 =>
    simp only [encAction, List.cons_append, List.cons.injEq,
      List.append_assoc] at h
    simp only [wfAction, Bool.and_eq_true] at ha hb
    obtain ⟨h1, hr1⟩ := encBytes_pd p1 p2 _ _ ha.1 hb.1 h.2
    obtain ⟨h2, hr2⟩ := encBytes_pd s1 s2 r s ha.2 hb.2 hr1
    exact ⟨by rw [h1, h2], hr2⟩

end Encode

namespace Encode

/-- Modelled from the spec: a transaction (spec section 3) — signer account
id, signer public key, nonce (u64), receiver account id, block hash reference
(a fixed 32-byte digest) and the ordered action list.  Account ids are the
byte strings of their opaque identifiers; the public key is its byte
encoding. -/
structure Transaction where
  signerId : List Nat
  publicKey : List Nat
  nonce : Nat
  receiverId : List Nat
  blockHash : List Nat
  actions : List Action
deriving DecidableEq, Repr

/-- Modelled from the spec: the fixed serialization layout — each field in
declaration order, length-prefixed byte strings for the variable-length
fields, fixed-width little-endian for the nonce, the 32-byte block hash
verbatim, and the count-prefixed action list. -/
def encTransaction (tx : Transaction) : List Nat :=
  encBytes tx.signerId
    ++ (encBytes tx.publicKey
      ++ (encU 8 tx.nonce
        ++ (encBytes tx.receiverId
          ++ (tx.blockHash ++ encVec encAction tx.actions))))

/-- The size and range constraints whose violation is an EncodingError. -/
def wfTransaction (tx : Transaction) : Bool :=
  wfBytes tx.signerId && wfBytes tx.publicKey && wfU 8 tx.nonce
    && wfBytes tx.receiverId && decide (tx.blockHash.length = 32)
    && wfVec wfAction tx.actions

/-- Modelled from the spec: encode(transaction) — the canonical bytes, or an
EncodingError (none) when a field violates its size or range constraint. -/
def encode (tx : Transaction) : Option (List Nat) :=
  if wfTransaction tx then some (encTransaction tx) else none

/-- Two well-formed transactions with the same canonical encoding are the
same transaction: every field is recovered from the byte stream. -/
theorem encTransaction_inj (tx ty : Transaction)
    (hx : wfTransaction tx = true) (hy : wfTransaction ty = true)
    (h : encTransaction tx = encTransaction ty) : tx = ty := by
  obtain ⟨s1, p1, n1, r1, bh1, ac1⟩ := tx
  obtain ⟨s2, p2, n2, r2, bh2, ac2⟩ := ty
  simp only [wfTransaction, Bool.and_eq_true] at hx hy
  obtain ⟨⟨⟨⟨⟨hxs, hxp⟩, hxn⟩, hxr⟩, hxbh⟩, hxac⟩ := hx
  obtain ⟨⟨⟨⟨⟨hys, hyp⟩, hyn⟩, hyr⟩, hybh⟩, hyac⟩ := hy
  simp only [encTransaction] at h
  obtain ⟨h1, hr1⟩ := encBytes_pd s1 s2 _ _ hxs hys h
  obtain ⟨h2, hr2⟩ := encBytes_pd p1 p2 _ _ hxp hyp hr1
  obtain ⟨h3, hr3⟩ := encU_pd 8 n1 n2 _ _ hxn hyn hr2
  obtain ⟨h4, hr4⟩ := encBytes_pd r1 r2 _ _ hxr hyr hr3
  have hlen : bh1.length = bh2.length := by
    rw [of_decide_eq_true hxbh, of_decide_eq_true hybh]
  obtain ⟨h5, hr5⟩ := List.append_inj hr4 hlen
  have hr5' : encVec encAction ac1 ++ ([] : List Nat)
      = encVec encAction ac2 ++ ([] : List Nat) := by
    rw [List.append_nil, List.append_nil]
    exact hr5
  obtain ⟨h6, -⟩ := encVec_pd encAction wfAction encAction_pd
    ac1 ac2 [] [] hxac hyac hr5'
  simp only [h1, h2, h3, h4, h5, h6]

/-- The spec's section 8 scenario transaction: account A transfers one unit
to account B with nonce 6. -/
def sampleTx : Transaction :=
  { signerId := [97]
    publicKey := [1, 2]
    nonce := 6
    receiverId := [98]
    blockHash := List.replicate 32 7
    actions := [.transfer 1] }

/-- The same logical transaction re-signed with nonce 7: a single-field
mutation of sampleTx. -/
def sampleTxBumped : Transaction :=
  { sampleTx with nonce := 7 }

end Encode

/-- C7: the transaction encoder is a pure deterministic function — repeated
calls on the identical logical input give identical bytes — and any two
distinct encodable transactions, in particular any pair differing in exactly
one field, have different encodings. -/
theorem C7_encode_deterministic_injective (tx ty : Encode.Transaction)
    (b b' : List Nat) (hx : Encode.encode tx = some b)
    (hy : Encode.encode ty = some b') (hne : tx ≠ ty) :
    Encode.encode tx = Encode.encode tx ∧ b ≠ b' := by
  refine ⟨rfl, ?_⟩
  intro hbb
  apply hne
  unfold Encode.encode at hx hy
  split at hx
  case isFalse => cases hx
  case isTrue hwx =>
    split at hy
    case isFalse => cases hy
    case isTrue hwy =>
      cases hx
      cases hy
      exact Encode.encTransaction_inj tx ty hwx hwy hbb

/-- C7 witness: the scenario transfer and its nonce-bumped single-field
mutation encode to different bytes. -/
theorem C7_encode_deterministic_injective_witness :
    Encode.encode Encode.sampleTx = Encode.encode Encode.sampleTx
      ∧ Encode.encTransaction Encode.sampleTx
          ≠ Encode.encTransaction Encode.sampleTxBumped :=
  C7_encode_deterministic_injective Encode.sampleTx Encode.sampleTxBumped
    (Encode.encTransaction Encode.sampleTx)
    (Encode.encTransaction Encode.sampleTxBumped)
    (by decide) (by decide) (by decide)
